import Mathlib

/-!
# Verification of the chat persistence layer and streaming chat route

Shallow embedding of the repository's conversation store
(`src/server/db/queries.ts`: `upsertChat`, `getChat`), the chat route
handler (`src/app/api/chat/route.ts`: `POST`, its `execute` stream and
`onFinish` persistence hook), the `scrapePages` tool adapter, and the
bounded reasoning loop, together with proofs of the specified
properties.

The database is modelled relationally: a `Store` holds the rows of the
two tables `chats (id, userId, title)` and
`messages (chatId, role, parts, order)`.  The schema file itself is not
part of the sources at hand; following the specification, `chats.id` is
the primary key of the chats table (a chat id identifies one chat), so
an insert of a duplicate id is a uniqueness violation, and
`messages.chatId` references `chats.id` (the well-formedness predicate
`StoreWF`).
-/

set_option autoImplicit false

/-- A row of the `chats` table: `id`, `userId`, `title`
(`updatedAt` plays no role in the verified claims). -/
structure ChatRow where
  id : String
  userId : String
  title : String
deriving Repr, DecidableEq

/-- A row of the `messages` table: `chatId`, `role`, `parts`, `order`.
The `parts` payload is opaque here (stored JSON). -/
structure MessageRow where
  chatId : String
  role : String
  parts : String
  order : Nat
deriving Repr, DecidableEq

/-- The `Message` value of the `ai` package as used by the code:
`role`, `parts` and the legacy flat `content` string. -/
structure Msg where
  role : String
  parts : String
  content : String
deriving Repr, DecidableEq

/-- The database state: the rows of the two tables. -/
structure Store where
  chats : List ChatRow
  msgs : List MessageRow
deriving Repr, DecidableEq

/-- The empty database. -/
def Store.empty : Store := ⟨[], []⟩

/-- Errors a store operation can raise.

`uniqueViolation` is the database rejecting an insert that duplicates
the `chats.id` primary key (modelled from the spec: the schema file is
not among the sources; §6 lays the chats table out keyed by `id`).
`ownershipConflict` is the typed
`Error("Chat ID already exists under a different user")` thrown by
`upsertChat` itself. -/
inductive DbError where
  | uniqueViolation
  | ownershipConflict
deriving Repr, DecidableEq

/-- Foreign-key well-formedness: every message row's `chatId` is the id
of some chat row (the two tables are related, §6). -/
def StoreWF (s : Store) : Prop :=
  ∀ m ∈ s.msgs, ∃ c ∈ s.chats, c.id = m.chatId

instance (s : Store) : Decidable (StoreWF s) := by
  unfold StoreWF; infer_instance

/-- The message rows `upsertChat` inserts: one row per provided message,
with `order` equal to the zero-based position in the list
(`opts.messages.map((msg, i) => ({chatId, role, parts, order: i}))`). -/
def insertRows (chatId : String) (msgs : List Msg) : List MessageRow :=
  msgs.enum.map fun p => ⟨chatId, p.2.role, p.2.parts, p.1⟩

/-- `upsertChat` from `src/server/db/queries.ts`:

1. look up a chat with this `chatId` **and** this `userId`;
2. if none is found, insert a fresh chats row (the database raises
   `uniqueViolation` if a row with this id already exists);
3. otherwise throw `ownershipConflict` if the found chat belongs to a
   different user, update the title when it changed, and delete all
   message rows of the chat;
4. finally, if the provided message list is non-empty, insert its rows
   with `order` = position. -/
def upsertChat (userId chatId title : String) (msgs : List Msg) (s : Store) :
    Except DbError Store :=
  let chat? := s.chats.find? fun c => c.id == chatId && c.userId == userId
  let step : Except DbError Store :=
    match chat? with
    | none =>
      if s.chats.any fun c => c.id == chatId then
        .error .uniqueViolation
      else
        .ok { s with chats := s.chats ++ [⟨chatId, userId, title⟩] }
    | some chat =>
      if chat.userId != userId then
        .error .ownershipConflict
      else
        let s0 : Store :=
          if chat.title != title then
            { s with chats := s.chats.map fun c =>
                if c.id == chatId then { c with title := title } else c }
          else s
        .ok { s0 with msgs := s0.msgs.filter fun m => m.chatId != chatId }
  match step with
  | .error e => .error e
  | .ok s1 =>
    if msgs.length > 0 then
      .ok { s1 with msgs := s1.msgs ++ insertRows chatId msgs }
    else
      .ok s1

/-- Stable insertion into a list sorted by ascending `order`. -/
def insertByOrder (m : MessageRow) : List MessageRow → List MessageRow
  | [] => [m]
  | x :: xs => if m.order ≤ x.order then m :: x :: xs else x :: insertByOrder m xs

/-- `ORDER BY messages.order ASC` of the message query, as a stable
insertion sort on the `order` field. -/
def sortByOrder (l : List MessageRow) : List MessageRow :=
  l.foldr insertByOrder []

/-- `getChat` from `src/server/db/queries.ts`: find the chat with this
id **and** this user (else `null`), then return it with its message
rows ordered by ascending `order`. -/
def getChat (userId chatId : String) (s : Store) :
    Option (ChatRow × List MessageRow) :=
  match s.chats.find? fun c => c.id == chatId && c.userId == userId with
  | none => none
  | some chat =>
    some (chat, sortByOrder (s.msgs.filter fun m => m.chatId == chatId))

/-! ## The chat route: stream frames and the `POST` handler -/

/-- A frame written to the data stream of the response:
the out-of-band `NEW_CHAT_CREATED` event written by `execute`, or a
frame of the merged model stream (text deltas and tool events),
abstracted as `token`. -/
inductive Frame where
  | newChatCreated (chatId : String)
  | token (t : String)
deriving Repr, DecidableEq

/-- Whether a frame belongs to the merged model stream. -/
def Frame.isToken : Frame → Bool
  | .token _ => true
  | _ => false

/-- Whether a frame is the `NEW_CHAT_CREATED` event. -/
def Frame.isNewChatCreated : Frame → Bool
  | .newChatCreated _ => true
  | _ => false

/-- The `execute` callback of `createDataStreamResponse` in the route:
when `isNewChat` it first writes the `NEW_CHAT_CREATED` event carrying
the chat id, then `result.mergeIntoDataStream(dataStream)` emits the
model frames. -/
def executeStream (isNewChat : Bool) (chatId : String)
    (modelFrames : List String) : List Frame :=
  (if isNewChat then [Frame.newChatCreated chatId] else []) ++
    modelFrames.map Frame.token

/-- The non-streaming part of the route's response. -/
inductive HttpResponse where
  | unauthorized
  | badRequest
  | notFound
  | serverError (e : DbError)
  | streamResponse (frames : List Frame)
deriving Repr, DecidableEq

/-- The title the route derives for a new chat:
`messages[messages.length - 1]!.content.slice(0, 50) + "..."`. -/
def newChatTitle (messages : List Msg) : String :=
  (messages.getLastD ⟨"", "", ""⟩).content.take 50 ++ "..."

/-- The `POST` handler of the chat route, up to the start of the model
stream: authentication check (401), empty-message check (400), then
either the new-chat `upsertChat` (`isNewChat`) or the ownership
verification against `chats` (404 when the chat is missing or owned by
someone else), and finally the data-stream response whose frames are
produced by `executeStream`.  Returns the response together with the
database state after the handler's own writes (the `onFinish`
persistence of the completed turn is modelled by `completeTurn`). -/
def POST (session : Option String) (chatId : String) (isNewChat : Bool)
    (messages : List Msg) (modelFrames : List String) (s : Store) :
    HttpResponse × Store :=
  match session with
  | none => (.unauthorized, s)
  | some userId =>
    if messages.length = 0 then (.badRequest, s)
    else if isNewChat then
      match upsertChat userId chatId (newChatTitle messages) messages s with
      | .error e => (.serverError e, s)
      | .ok s1 => (.streamResponse (executeStream true chatId modelFrames), s1)
    else
      match s.chats.find? fun c => c.id == chatId with
      | none => (.notFound, s)
      | some chat =>
        if chat.userId != userId then (.notFound, s)
        else (.streamResponse (executeStream false chatId modelFrames), s)

/-! ## The `onFinish` persistence hook and turn delivery -/

/-- What a completed response turn leaves behind: the answer frames
delivered over the stream, the database state after the `onFinish`
save, and the log entries written. -/
structure TurnOutcome where
  delivered : List String
  store : Store
  log : List String
deriving Repr, DecidableEq

/-- The `onFinish` handler's persistence write:
`upsertChat({...}).catch((error) => console.error("Failed to save
chat:", error))` — a failing save is caught and logged, never
re-thrown. -/
def onFinishSave (userId chatId title : String) (updatedMessages : List Msg)
    (s : Store) : Store × List String :=
  match upsertChat userId chatId title updatedMessages s with
  | .ok s1 => (s1, [])
  | .error _ => (s, ["Failed to save chat:"])

/-- A completed response turn: the generated answer is streamed to the
client by `mergeIntoDataStream` (frame by frame, before and
independently of `onFinish`), and `onFinish` then runs the best-effort
persistence write. -/
def completeTurn (userId chatId title : String) (updatedMessages : List Msg)
    (answer : List String) (s : Store) : TurnOutcome :=
  let saved := onFinishSave userId chatId title updatedMessages s
  ⟨answer, saved.1, saved.2⟩

/-! ## The scrape tool adapter -/

/-- Outcome of crawling one URL: the extracted text, or an error
detail. -/
inductive CrawlResult where
  | ok (data : String)
  | err (error : String)
deriving Repr, DecidableEq

/-- The discriminant of a per-URL crawl outcome. -/
def CrawlResult.success : CrawlResult → Bool
  | .ok _ => true
  | .err _ => false

/-- The payload the `scrapePages` adapter forwards:
`result.success ? result.data : result.error`. -/
def CrawlResult.payload : CrawlResult → String
  | .ok d => d
  | .err e => e

/-- One entry of `results.results`: the URL and its outcome. -/
structure UrlResult where
  url : String
  result : CrawlResult
deriving Repr, DecidableEq

/-- The value returned by `bulkCrawlWebsites`. -/
structure BulkResult where
  success : Bool
  results : List UrlResult
deriving Repr, DecidableEq

/-- Modelled from the spec: `bulkCrawlWebsites` of `~/scraper` is not
among the sources at hand; §4.3 specifies `scrapeMany`: every URL is
fetched (here through the abstract network `fetch`), **all** per-URL
outcomes are returned, and the global `success` is false iff at least
one URL failed. -/
def bulkCrawlWebsites (fetch : String → CrawlResult) (urls : List String) :
    BulkResult :=
  let results := urls.map fun u => UrlResult.mk u (fetch u)
  ⟨results.all fun r => r.result.success, results⟩

/-- One per-URL outcome as the `scrapePages` tool hands it to the
model: `{ url, success, data }`. -/
structure ScrapeOutcome where
  url : String
  success : Bool
  data : String
deriving Repr, DecidableEq

/-- The value the `scrapePages` tool returns to the model: the per-URL
outcomes, with the `error` field present exactly when the bulk crawl
reported overall failure. -/
structure ScrapeReturn where
  isError : Bool
  results : List ScrapeOutcome
deriving Repr, DecidableEq

/-- The `execute` of the `scrapePages` tool in the route: run
`bulkCrawlWebsites({ urls })`; when `results.success` is false return
`{ error, results: ... }`, otherwise `{ results: ... }` — in both
branches every per-URL outcome is mapped to `{ url, success, data }`. -/
def scrapePages (fetch : String → CrawlResult) (urls : List String) :
    ScrapeReturn :=
  let results := bulkCrawlWebsites fetch urls
  if !results.success then
    ⟨true, results.results.map fun r => ⟨r.url, r.result.success, r.result.payload⟩⟩
  else
    ⟨false, results.results.map fun r => ⟨r.url, r.result.success, r.result.payload⟩⟩

/-! ## The bounded reasoning loop -/

/-- What one model invocation yields: final text (terminating the
loop), or a partial text together with requested tool calls whose
results re-enter the context. -/
inductive StepOutcome where
  | finalText (t : String)
  | toolCalls (pendingText : String) (results : List String)
deriving Repr, DecidableEq

/-- Whether a step requested further tool calls. -/
def StepOutcome.isToolCalls : StepOutcome → Bool
  | .toolCalls _ _ => true
  | _ => false

/-- The `maxSteps: 10` ceiling passed to `streamText` in the route. -/
def maxStepsCeiling : Nat := 10

/-- Modelled from the spec: the reasoning loop driven by `streamText`
lives inside the `ai` package; §4.1 specifies it.  Each step invokes
the model on the current context; final text terminates the loop, tool
calls append their results to the context and re-invoke the model; the
`fuel` ceiling is the only other stop condition, and on exhaustion the
last partial output is treated as final.  Returns the final text and
the number of model invocation steps performed. -/
def runLoop (model : List String → StepOutcome) (fuel : Nat)
    (ctx : List String) (pending : String) : String × Nat :=
  match fuel with
  | 0 => (pending, 0)
  | n + 1 =>
    match model ctx with
    | .finalText t => (t, 1)
    | .toolCalls p rs =>
      let rec' := runLoop model n (ctx ++ rs) p
      (rec'.1, rec'.2 + 1)

/-- `streamText` with the route's configuration: run the loop with the
`maxSteps: 10` ceiling. -/
def streamTextLoop (model : List String → StepOutcome)
    (messages : List String) : String × Nat :=
  runLoop model maxStepsCeiling messages ""

/-! ## Helper lemmas -/

/-- When no chat row carries the id, foreign-key well-formedness rules
out message rows with that `chatId`, so the delete filter is the
identity. -/
theorem filter_ne_of_no_chat (s : Store) (cid : String) (hwf : StoreWF s)
    (ha : (s.chats.any fun c => c.id == cid) = false) :
    (s.msgs.filter fun m => m.chatId != cid) = s.msgs := by
  apply List.filter_eq_self.mpr
  intro m hm
  rcases hwf m hm with ⟨c, hc, hcid⟩
  rw [List.any_eq_false] at ha
  rw [bne_iff_ne]
  intro hmc
  exact ha c hc (by simp [hcid, hmc])

/-- Every row `upsertChat` inserts carries the chat's id, so the delete
filter of a later call removes all of them. -/
theorem filter_ne_insertRows (cid : String) (ms : List Msg) :
    ((insertRows cid ms).filter fun m => m.chatId != cid) = [] := by
  apply List.filter_eq_nil_iff.mpr
  intro r hr
  rcases List.mem_map.mp hr with ⟨p, _, rfl⟩
  simp

/-- The rows `upsertChat` inserts all survive the `chatId` selection of
`getChat`. -/
theorem filter_eq_insertRows (cid : String) (ms : List Msg) :
    ((insertRows cid ms).filter fun m => m.chatId == cid) = insertRows cid ms := by
  apply List.filter_eq_self.mpr
  intro r hr
  rcases List.mem_map.mp hr with ⟨p, _, rfl⟩
  simp

/-- Filtering with the same predicate twice filters once. -/
theorem filter_idem {α : Type} (p : α → Bool) (l : List α) :
    (l.filter p).filter p = l.filter p :=
  List.filter_eq_self.mpr fun _ ha => (List.mem_filter.mp ha).2

/-- Rows kept by the delete filter are dropped by the `chatId`
selection. -/
theorem filter_eq_of_filter_ne (cid : String) (l : List MessageRow) :
    ((l.filter fun m => m.chatId != cid).filter fun m => m.chatId == cid) = [] := by
  apply List.filter_eq_nil_iff.mpr
  intro r hr
  have hne := (List.mem_filter.mp hr).2
  rw [bne_iff_ne] at hne
  simp [hne]

/-- The title-update map preserves the chat lookup predicate, so the
lookup commutes with it. -/
theorem find?_chats_map_title (cid title uid : String) (l : List ChatRow) :
    ((l.map fun c => if c.id == cid then { c with title := title } else c).find?
        fun c => c.id == cid && c.userId == uid) =
      (l.find? fun c => c.id == cid && c.userId == uid).map
        fun c => if c.id == cid then { c with title := title } else c := by
  rw [List.find?_map]
  have hpf : ((fun c => c.id == cid && c.userId == uid) ∘ fun c : ChatRow =>
      if c.id == cid then { c with title := title } else c) =
      fun c : ChatRow => c.id == cid && c.userId == uid := by
    funext c
    by_cases h : c.id == cid <;> simp [Function.comp, h]
  rw [hpf]

/-- `sortByOrder` leaves a run of rows with consecutive `order` values
unchanged. -/
theorem sortByOrder_enumFrom (cid : String) (ms : List Msg) :
    ∀ k : Nat,
      sortByOrder ((ms.enumFrom k).map fun p => ⟨cid, p.2.role, p.2.parts, p.1⟩) =
        (ms.enumFrom k).map fun p => ⟨cid, p.2.role, p.2.parts, p.1⟩ := by
  induction ms with
  | nil => intro k; rfl
  | cons m ms ih =>
    intro k
    simp only [List.enumFrom_cons, List.map_cons]
    show insertByOrder _ (sortByOrder _) = _
    rw [ih (k + 1)]
    cases ms with
    | nil => rfl
    | cons m2 ms2 =>
      simp only [List.enumFrom_cons, List.map_cons, insertByOrder]
      rw [if_pos (Nat.le_succ k)]

/-- The rows inserted by `upsertChat` come back unchanged from the
`ORDER BY order ASC` sort. -/
theorem sortByOrder_insertRows (cid : String) (ms : List Msg) :
    sortByOrder (insertRows cid ms) = insertRows cid ms := by
  have h := sortByOrder_enumFrom cid ms 0
  simpa [insertRows, List.enum_eq_enumFrom] using h

/-! ## Claim theorems -/

/-- Claim C1 (code bug): at the failing input — chat `"c1"` existing
under user `"u1"`, `upsertChat` called by `"u2"` — the existence lookup
filters by both id and user, so the call takes the create path and
fails with the primary-key `uniqueViolation`; moreover the typed
`ownershipConflict` throw is unreachable on every input, because the
lookup that guards it already filtered on the caller's `userId`. -/
theorem upsertChat_otherUser_pkViolation :
    upsertChat "u2" "c1" "t2" [⟨"user", "p", "hi"⟩]
        ⟨[⟨"c1", "u1", "t1"⟩], []⟩ = .error .uniqueViolation ∧
    ∀ (uid cid t : String) (ms : List Msg) (s : Store),
      upsertChat uid cid t ms s ≠ .error .ownershipConflict := by
  refine ⟨rfl, fun uid cid t ms s h => ?_⟩
  cases hf : s.chats.find? fun c => c.id == cid && c.userId == uid with
  | none =>
    cases ha : s.chats.any fun c => c.id == cid with
    | true => simp [upsertChat, hf, ha] at h
    | false =>
      simp only [upsertChat, hf, ha] at h
      split at h
      · simp_all
      · split at h <;> exact Except.noConfusion h
  | some chat =>
    have hp := List.find?_some hf
    simp only [Bool.and_eq_true, beq_iff_eq] at hp
    simp only [upsertChat, hf, hp.2, bne_self_eq_false, Bool.false_eq_true,
      if_false] at h
    split at h <;> simp at h

/-- Witness for C1's universally quantified part at a concrete input:
even the empty store never produces the typed ownership error. -/
theorem upsertChat_otherUser_pkViolation_witness :
    upsertChat "a" "b" "t" [] Store.empty ≠ .error .ownershipConflict :=
  upsertChat_otherUser_pkViolation.2 "a" "b" "t" [] Store.empty

/-- Claim C2 counterexample: with chat `"c1"` stored under `"u1"`, an
`upsertChat` by `"u2"` fails with a uniqueness violation, while the
same call against a store without that chat succeeds — an observable
difference that reveals the chat's existence, contradicting the claim
that upsert behaves identically to the nonexistent case. -/
theorem upsertChat_nonowned_distinguishable :
    upsertChat "u2" "c1" "t" [] ⟨[⟨"c1", "u1", "t1"⟩], []⟩ =
        .error .uniqueViolation ∧
    upsertChat "u2" "c1" "t" [] Store.empty =
        .ok ⟨[⟨"c1", "u2", "t"⟩], []⟩ :=
  ⟨rfl, rfl⟩

/-- Claim C2 (amended): for every chat id not owned by the requesting
user, `getChat` returns the same `none` as for a nonexistent chat, and
`upsertChat` enters the same create path; but when the id does exist
under another user that create path fails with a uniqueness violation
(while succeeding when no such chat exists), so `upsertChat`'s outcome
observably reveals existence. -/
theorem getChat_upsertChat_nonowned (s : Store) (uid cid title : String)
    (ms : List Msg)
    (hno : ∀ c ∈ s.chats, c.id = cid → c.userId ≠ uid) :
    getChat uid cid s = none ∧
    ((∃ c ∈ s.chats, c.id = cid) →
      upsertChat uid cid title ms s = .error .uniqueViolation) := by
  have hf : (s.chats.find? fun c => c.id == cid && c.userId == uid) = none := by
    rw [List.find?_eq_none]
    intro c hc
    simp only [Bool.and_eq_true, beq_iff_eq, not_and]
    exact fun h1 h2 => hno c hc h1 h2
  constructor
  · simp [getChat, hf]
  · rintro ⟨c, hc, hcid⟩
    have ha : (s.chats.any fun c => c.id == cid) = true := by
      rw [List.any_eq_true]
      exact ⟨c, hc, by simp [hcid]⟩
    simp [upsertChat, hf, ha]

/-- Witness for C2's amended theorem at the counterexample store. -/
theorem getChat_upsertChat_nonowned_witness :
    getChat "u2" "c1" ⟨[⟨"c1", "u1", "t1"⟩], []⟩ = none ∧
    ((∃ c ∈ (⟨[⟨"c1", "u1", "t1"⟩], []⟩ : Store).chats, c.id = "c1") →
      upsertChat "u2" "c1" "t" [] ⟨[⟨"c1", "u1", "t1"⟩], []⟩ =
        .error .uniqueViolation) :=
  getChat_upsertChat_nonowned ⟨[⟨"c1", "u1", "t1"⟩], []⟩ "u2" "c1" "t" []
    (by decide)

/-- Claim C3: for every completed response turn, the generated answer
is delivered over the stream unchanged whatever the persistence write
does, and when the `onFinish` `upsertChat` fails the failure is caught
and logged (`.catch` with `console.error`). -/
theorem completeTurn_delivers_and_logs (userId chatId title : String)
    (updatedMessages : List Msg) (answer : List String) (s : Store) :
    (completeTurn userId chatId title updatedMessages answer s).delivered =
      answer ∧
    ∀ e, upsertChat userId chatId title updatedMessages s = .error e →
      (completeTurn userId chatId title updatedMessages answer s).log ≠ [] := by
  refine ⟨rfl, fun e he => ?_⟩
  simp [completeTurn, onFinishSave, he]

/-- Witness for C3 at a concrete failing save: the answer is still
delivered and the failure is logged. -/
theorem completeTurn_delivers_and_logs_witness :
    (completeTurn "u2" "c1" "t" [] ["the answer"]
        ⟨[⟨"c1", "u1", "t0"⟩], []⟩).delivered = ["the answer"] ∧
    (completeTurn "u2" "c1" "t" [] ["the answer"]
        ⟨[⟨"c1", "u1", "t0"⟩], []⟩).log ≠ [] :=
  ⟨(completeTurn_delivers_and_logs "u2" "c1" "t" [] ["the answer"]
      ⟨[⟨"c1", "u1", "t0"⟩], []⟩).1,
   (completeTurn_delivers_and_logs "u2" "c1" "t" [] ["the answer"]
      ⟨[⟨"c1", "u1", "t0"⟩], []⟩).2 .uniqueViolation rfl⟩

/-- Claim C4: scraping N URLs of which M succeed returns exactly N
per-URL outcomes — both from `bulkCrawlWebsites` and through the
`scrapePages` tool mapping, successes included — and the overall
success flag is false (the tool's error field present) iff M < N. -/
theorem scrapePages_outcomes (fetch : String → CrawlResult)
    (urls : List String) :
    (bulkCrawlWebsites fetch urls).results.length = urls.length ∧
    ((bulkCrawlWebsites fetch urls).success = false ↔
      (urls.filter fun u => (fetch u).success).length < urls.length) ∧
    (scrapePages fetch urls).results.length = urls.length ∧
    ((scrapePages fetch urls).isError = true ↔
      (urls.filter fun u => (fetch u).success).length < urls.length) := by
  have hlen : (bulkCrawlWebsites fetch urls).results.length = urls.length := by
    simp [bulkCrawlWebsites]
  have hsucc : (bulkCrawlWebsites fetch urls).success =
      (urls.all fun u => (fetch u).success) := by
    clear hlen
    show ((urls.map fun u => UrlResult.mk u (fetch u)).all
        fun r => r.result.success) = urls.all fun u => (fetch u).success
    induction urls with
    | nil => rfl
    | cons u us ih => simp only [List.map_cons, List.all_cons, ih]
  have hiff : ((urls.all fun u => (fetch u).success) = false ↔
      (urls.filter fun u => (fetch u).success).length < urls.length) := by
    rw [List.all_eq_false, ← List.countP_eq_length_filter]
    constructor
    · rintro ⟨x, hx, hnx⟩
      refine Nat.lt_of_le_of_ne
        (List.countP_le_length (p := fun u => (fetch u).success)) fun heq => ?_
      exact hnx (List.countP_eq_length.mp heq x hx)
    · intro hlt
      by_contra hc
      push_neg at hc
      exact Nat.lt_irrefl _ (List.countP_eq_length.mpr hc ▸ hlt)
  have hErr : (scrapePages fetch urls).isError =
      !(bulkCrawlWebsites fetch urls).success := by
    cases hs : (bulkCrawlWebsites fetch urls).success <;>
      simp [scrapePages, hs]
  have hlen2 : (scrapePages fetch urls).results.length = urls.length := by
    cases hs : (bulkCrawlWebsites fetch urls).success <;>
      simp [scrapePages, hs, hlen]
  refine ⟨hlen, hsucc ▸ hiff, hlen2, ?_⟩
  rw [hErr, Bool.not_eq_true', hsucc]
  exact hiff

/-- The loop never performs more model invocation steps than it has
fuel. -/
theorem runLoop_steps_le (model : List String → StepOutcome) :
    ∀ (fuel : Nat) (ctx : List String) (pending : String),
      (runLoop model fuel ctx pending).2 ≤ fuel := by
  intro fuel
  induction fuel with
  | zero => intro ctx pending; simp [runLoop]
  | succ n ih =>
    intro ctx pending
    simp only [runLoop]
    cases model ctx with
    | finalText t => simp
    | toolCalls p rs => simpa using Nat.succ_le_succ (ih (ctx ++ rs) p)

/-- Against a model that requests tool calls at every step, the loop
runs exactly its fuel's worth of steps and stops. -/
theorem runLoop_steps_of_toolCalls (model : List String → StepOutcome)
    (hm : ∀ ctx, (model ctx).isToolCalls = true) :
    ∀ (fuel : Nat) (ctx : List String) (pending : String),
      (runLoop model fuel ctx pending).2 = fuel := by
  intro fuel
  induction fuel with
  | zero => intro ctx pending; simp [runLoop]
  | succ n ih =>
    intro ctx pending
    simp only [runLoop]
    cases hmc : model ctx with
    | finalText t =>
      have hx := hm ctx
      rw [hmc] at hx
      exact absurd hx (by simp [StepOutcome.isToolCalls])
    | toolCalls p rs => simpa using ih (ctx ++ rs) p
  
/-- Claim C6: the tool-augmented reasoning loop performs at most the
configured ceiling (`maxSteps: 10`) of model invocation steps, and even
against a model that requests further tool calls at every step it still
terminates at the ceiling — `streamTextLoop` is a total function, so a
text response is always returned. -/
theorem streamTextLoop_bounded (model : List String → StepOutcome)
    (messages : List String) :
    (streamTextLoop model messages).2 ≤ maxStepsCeiling ∧
    ((∀ ctx, (model ctx).isToolCalls = true) →
      (streamTextLoop model messages).2 = maxStepsCeiling) :=
  ⟨runLoop_steps_le model maxStepsCeiling messages "",
   fun hm => runLoop_steps_of_toolCalls model hm maxStepsCeiling messages ""⟩

/-- Witness for C6 against the concrete always-tool-calling model. -/
theorem streamTextLoop_bounded_witness :
    (streamTextLoop (fun _ => StepOutcome.toolCalls "p" ["r"]) ["q"]).2 =
      maxStepsCeiling :=
  (streamTextLoop_bounded (fun _ => StepOutcome.toolCalls "p" ["r"]) ["q"]).2
    fun _ => rfl

/-- Model-stream frames contain no `NEW_CHAT_CREATED` event. -/
theorem countP_token_frames (l : List String) :
    (l.map Frame.token).countP Frame.isNewChatCreated = 0 := by
  rw [List.countP_map]
  apply List.countP_eq_zero.mpr
  intro a _
  simp [Function.comp, Frame.isNewChatCreated]

/-- `execute` with `isNewChat=false` writes only the model frames. -/
theorem executeStream_false (chatId : String) (mf : List String) :
    executeStream false chatId mf = mf.map Frame.token := by
  simp [executeStream]

/-- `execute` with `isNewChat=true` writes the `NEW_CHAT_CREATED` event
first, then the model frames. -/
theorem executeStream_true (chatId : String) (mf : List String) :
    executeStream true chatId mf =
      Frame.newChatCreated chatId :: mf.map Frame.token := by
  simp [executeStream]

/-- Claim C7: the `NEW_CHAT_CREATED` event appears at most once in the
stream, never when the request did not declare `isNewChat`, and always
before every model frame (no token frame precedes it). -/
theorem executeStream_newChatEvent (isNewChat : Bool) (chatId : String)
    (modelFrames : List String) :
    (executeStream isNewChat chatId modelFrames).countP
        Frame.isNewChatCreated ≤ 1 ∧
    (executeStream false chatId modelFrames).countP
        Frame.isNewChatCreated = 0 ∧
    ∀ pre f post,
      executeStream isNewChat chatId modelFrames = pre ++ f :: post →
      f.isNewChatCreated = true → ∀ g ∈ pre, g.isToken = false := by
  have htok : ∀ x ∈ modelFrames.map Frame.token,
      Frame.isNewChatCreated x = false := by
    intro x hx
    rcases List.mem_map.mp hx with ⟨a, _, rfl⟩
    rfl
  refine ⟨?_, ?_, ?_⟩
  · cases isNewChat with
    | false =>
      rw [executeStream_false, countP_token_frames]
      exact Nat.zero_le 1
    | true =>
      rw [executeStream_true, List.countP_cons, countP_token_frames]
      simp [Frame.isNewChatCreated]
  · rw [executeStream_false, countP_token_frames]
  · intro pre f post heq hf g hg
    cases isNewChat with
    | false =>
      rw [executeStream_false] at heq
      have hfmem : f ∈ modelFrames.map Frame.token := by
        rw [heq]
        exact List.mem_append_right _ (List.mem_cons_self f post)
      rw [htok f hfmem] at hf
      exact absurd hf (by simp)
    | true =>
      rw [executeStream_true] at heq
      cases pre with
      | nil => exact absurd hg (List.not_mem_nil g)
      | cons a pre2 =>
        rw [List.cons_append] at heq
        injection heq with h1 htail
        have hfmem : f ∈ modelFrames.map Frame.token := by
          rw [htail]
          exact List.mem_append_right _ (List.mem_cons_self f post)
        rw [htok f hfmem] at hf
        exact absurd hf (by simp)

/-- Witness for C7 at a concrete stream with one model token. -/
theorem executeStream_newChatEvent_witness :
    (executeStream true "c" ["hi"]).countP Frame.isNewChatCreated ≤ 1 ∧
    (∀ g ∈ ([] : List Frame), g.isToken = false) :=
  ⟨(executeStream_newChatEvent true "c" ["hi"]).1,
   (executeStream_newChatEvent true "c" ["hi"]).2.2 []
     (Frame.newChatCreated "c") [Frame.token "hi"] rfl rfl⟩

/-- Claim C9: a `POST` with `isNewChat=false` against an existing chat
owned by a different user returns 404 and leaves every database row
untouched. -/
theorem POST_nonowned_404 (uid cid : String) (messages : List Msg)
    (modelFrames : List String) (s : Store)
    (hex : ∃ c ∈ s.chats, c.id = cid)
    (hno : ∀ c ∈ s.chats, c.id = cid → c.userId ≠ uid)
    (hmsg : messages ≠ []) :
    POST (some uid) cid false messages modelFrames s =
      (HttpResponse.notFound, s) := by
  have hlen : ¬ messages.length = 0 := fun h => hmsg (List.length_eq_zero.mp h)
  cases hf : s.chats.find? fun c => c.id == cid with
  | none =>
    rcases hex with ⟨c, hc, hcid⟩
    rw [List.find?_eq_none] at hf
    exact absurd (by simp [hcid] : ((fun c : ChatRow => c.id == cid) c) = true)
      (hf c hc)
  | some chat =>
    have hcid : chat.id = cid := by simpa using List.find?_some hf
    have hmem := List.mem_of_find?_eq_some hf
    have hne : chat.userId ≠ uid := hno chat hmem hcid
    simp [POST, hlen, hf, bne_iff_ne, hne]

/-- Witness for C9: concrete request by `"u2"` against chat `"c1"`
owned by `"u1"`. -/
theorem POST_nonowned_404_witness :
    POST (some "u2") "c1" false [⟨"user", "p", "hi"⟩] ["tok"]
        ⟨[⟨"c1", "u1", "t"⟩], []⟩ =
      (HttpResponse.notFound, ⟨[⟨"c1", "u1", "t"⟩], []⟩) :=
  POST_nonowned_404 "u2" "c1" [⟨"user", "p", "hi"⟩] ["tok"]
    ⟨[⟨"c1", "u1", "t"⟩], []⟩ ⟨⟨"c1", "u1", "t"⟩, by decide, rfl⟩
    (by decide) (by decide)

/-- Claim C10: `upsertChat` with an empty message list is accepted —
for a fresh chat id it creates the chat row and inserts no message
rows; for an existing owned chat it deletes all prior message rows and
inserts none, leaving the chat row in place with zero messages. -/
theorem upsertChat_empty_messages (uid cid title : String) (s : Store) :
    ((∀ c ∈ s.chats, c.id ≠ cid) →
      upsertChat uid cid title [] s =
        .ok ⟨s.chats ++ [⟨cid, uid, title⟩], s.msgs⟩) ∧
    (∀ owner ∈ s.chats, owner.id = cid → owner.userId = uid →
      ∃ s1, upsertChat uid cid title [] s = .ok s1 ∧
        s1.msgs = (s.msgs.filter fun m => m.chatId != cid) ∧
        ∃ c ∈ s1.chats, c.id = cid ∧ c.userId = uid) := by
  constructor
  · intro hnew
    have hf : (s.chats.find? fun c => c.id == cid && c.userId == uid) = none := by
      rw [List.find?_eq_none]
      intro c hc
      simp only [Bool.and_eq_true, beq_iff_eq, not_and]
      exact fun h1 _ => hnew c hc h1
    have ha : (s.chats.any fun c => c.id == cid) = false := by
      rw [List.any_eq_false]
      intro c hc
      simp only [beq_iff_eq]
      exact hnew c hc
    simp [upsertChat, hf, ha]
  · intro owner hmem hid huid
    cases hf : s.chats.find? fun c => c.id == cid && c.userId == uid with
    | none =>
      rw [List.find?_eq_none] at hf
      exact absurd
        (by simp [hid, huid] :
          ((fun c : ChatRow => c.id == cid && c.userId == uid) owner) = true)
        (hf owner hmem)
    | some chat =>
      have hp := List.find?_some hf
      simp only [Bool.and_eq_true, beq_iff_eq] at hp
      have hcmem := List.mem_of_find?_eq_some hf
      by_cases ht : chat.title = title
      · refine ⟨⟨s.chats, s.msgs.filter fun m => m.chatId != cid⟩, ?_, rfl,
          chat, hcmem, hp.1, hp.2⟩
        simp [upsertChat, hf, hp.2, ht]
      · refine ⟨⟨s.chats.map fun c =>
            if c.id == cid then { c with title := title } else c,
          s.msgs.filter fun m => m.chatId != cid⟩, ?_, rfl, ?_⟩
        · simp [upsertChat, hf, hp.2, ht, bne_iff_ne]
        · refine ⟨{ chat with title := title }, ?_, hp.1, hp.2⟩
          have hmm := List.mem_map_of_mem
            (fun c : ChatRow =>
              if c.id == cid then { c with title := title } else c) hcmem
          simpa [hp.1] using hmm

/-- Witness for C10 at concrete stores: a fresh chat id on the empty
store, and an existing owned chat with one stored message. -/
theorem upsertChat_empty_messages_witness :
    upsertChat "u" "c" "t" [] Store.empty =
      .ok ⟨[⟨"c", "u", "t"⟩], []⟩ ∧
    ∃ s1, upsertChat "u" "c" "t"
        [] ⟨[⟨"c", "u", "t0"⟩], [⟨"c", "user", "p", 0⟩]⟩ = .ok s1 ∧
      s1.msgs = ((⟨[⟨"c", "u", "t0"⟩], [⟨"c", "user", "p", 0⟩]⟩ :
          Store).msgs.filter fun m => m.chatId != "c") ∧
      ∃ c ∈ s1.chats, c.id = "c" ∧ c.userId = "u" :=
  ⟨(upsertChat_empty_messages "u" "c" "t" Store.empty).1 (by decide),
   (upsertChat_empty_messages "u" "c" "t"
      ⟨[⟨"c", "u", "t0"⟩], [⟨"c", "user", "p", 0⟩]⟩).2
     ⟨"c", "u", "t0"⟩ (by decide) rfl rfl⟩

/-- The result of `upsertChat` on the owned-chat path: title updated
when it changed, all prior message rows of the chat deleted, the
provided rows appended. -/
theorem upsertChat_found (uid cid title : String) (ms : List Msg) (s : Store)
    (chat : ChatRow)
    (hf : (s.chats.find? fun c => c.id == cid && c.userId == uid) = some chat)
    (huid : chat.userId = uid) :
    upsertChat uid cid title ms s =
      .ok ⟨if chat.title == title then s.chats
           else s.chats.map fun c =>
             if c.id == cid then { c with title := title } else c,
          (s.msgs.filter fun m => m.chatId != cid) ++ insertRows cid ms⟩ := by
  have hbne : (chat.userId != uid) = false := by simp [huid]
  by_cases ht : chat.title = title
  · have h1 : (chat.title != title) = false := by simp [ht]
    have h2 : (chat.title == title) = true := by simp [ht]
    cases ms with
    | nil => simp [upsertChat, hf, hbne, h1, h2, insertRows]
    | cons m ms2 => simp [upsertChat, hf, hbne, h1, h2]
  · have h1 : (chat.title != title) = true := by simp [bne_iff_ne, ht]
    have h2 : (chat.title == title) = false := by simp [ht]
    cases ms with
    | nil => simp [upsertChat, hf, hbne, h1, h2, insertRows]
    | cons m ms2 => simp [upsertChat, hf, hbne, h1, h2]

/-- Claim C8: `upsertChat` on an existing owned chat deletes all prior
message rows of the chat and inserts the provided messages with
`order` equal to their zero-based position, and a subsequent `getChat`
returns them sorted ascending by `order` — exactly the provided
sequence. -/
theorem upsertChat_replace_getChat (uid cid title : String) (ms : List Msg)
    (s : Store)
    (hex : ∃ c ∈ s.chats, c.id = cid ∧ c.userId = uid) :
    ∃ s1, upsertChat uid cid title ms s = .ok s1 ∧
      s1.msgs = (s.msgs.filter fun m => m.chatId != cid) ++ insertRows cid ms ∧
      ((insertRows cid ms).map fun r => (r.role, r.parts)) =
        (ms.map fun m => (m.role, m.parts)) ∧
      ((insertRows cid ms).map fun r => r.order) = List.range ms.length ∧
      ∃ chatRow, getChat uid cid s1 = some (chatRow, insertRows cid ms) := by
  have hproj : ((insertRows cid ms).map fun r => (r.role, r.parts)) =
      ms.map fun m => (m.role, m.parts) := by
    rw [insertRows, List.map_map]
    have hcomp : ((fun r : MessageRow => (r.role, r.parts)) ∘ fun p : Nat × Msg =>
        (⟨cid, p.2.role, p.2.parts, p.1⟩ : MessageRow)) =
        (fun m : Msg => (m.role, m.parts)) ∘ Prod.snd := rfl
    rw [hcomp, ← List.map_map, List.enum_eq_enumFrom, List.enumFrom_map_snd]
  have hord : ((insertRows cid ms).map fun r => r.order) =
      List.range ms.length := by
    rw [insertRows, List.map_map]
    have hcomp : ((fun r : MessageRow => r.order) ∘ fun p : Nat × Msg =>
        (⟨cid, p.2.role, p.2.parts, p.1⟩ : MessageRow)) =
        (Prod.fst : Nat × Msg → Nat) := rfl
    rw [hcomp, List.enum_eq_enumFrom, List.enumFrom_map_fst,
      ← List.range_eq_range']
  have hmsgsel : (((s.msgs.filter fun m => m.chatId != cid) ++
      insertRows cid ms).filter fun m => m.chatId == cid) =
      insertRows cid ms := by
    rw [List.filter_append, filter_eq_of_filter_ne, filter_eq_insertRows,
      List.nil_append]
  cases hf : s.chats.find? fun c => c.id == cid && c.userId == uid with
  | none =>
    rcases hex with ⟨c, hc, hcid, hcu⟩
    rw [List.find?_eq_none] at hf
    exact absurd
      (by simp [hcid, hcu] :
        ((fun c : ChatRow => c.id == cid && c.userId == uid) c) = true)
      (hf c hc)
  | some chat =>
    have hp := List.find?_some hf
    simp only [Bool.and_eq_true, beq_iff_eq] at hp
    have hup := upsertChat_found uid cid title ms s chat hf hp.2
    refine ⟨_, hup, rfl, hproj, hord, ?_⟩
    by_cases ht : chat.title = title
    · have hc1 : (chat.title == title) = true := by simp [ht]
      refine ⟨chat, ?_⟩
      simp only [hc1, if_true]
      simp only [getChat, hf]
      rw [hmsgsel, sortByOrder_insertRows]
    · have hc1 : (chat.title == title) = false := by simp [ht]
      refine ⟨{ chat with title := title }, ?_⟩
      simp only [hc1, Bool.false_eq_true, if_false]
      simp only [getChat, find?_chats_map_title, hf, Option.map_some']
      simp only [hp.1, beq_self_eq_true, if_true]
      rw [hmsgsel, sortByOrder_insertRows]

/-- Witness for C8 at a concrete owned chat with one stale message and
two new messages. -/
theorem upsertChat_replace_getChat_witness :
    ∃ s1, upsertChat "u" "c" "t1" [⟨"user", "p1", "q"⟩, ⟨"assistant", "p2", "a"⟩]
        ⟨[⟨"c", "u", "t0"⟩], [⟨"c", "user", "old", 0⟩]⟩ = .ok s1 ∧
      s1.msgs = (((⟨[⟨"c", "u", "t0"⟩], [⟨"c", "user", "old", 0⟩]⟩ :
          Store).msgs.filter fun m => m.chatId != "c") ++
        insertRows "c" [⟨"user", "p1", "q"⟩, ⟨"assistant", "p2", "a"⟩]) ∧
      ((insertRows "c" [⟨"user", "p1", "q"⟩, ⟨"assistant", "p2", "a"⟩]).map
          fun r => (r.role, r.parts)) =
        ([⟨"user", "p1", "q"⟩, ⟨"assistant", "p2", "a"⟩].map
          fun m : Msg => (m.role, m.parts)) ∧
      ((insertRows "c" [⟨"user", "p1", "q"⟩, ⟨"assistant", "p2", "a"⟩]).map
          fun r => r.order) = List.range 2 ∧
      ∃ chatRow, getChat "u" "c" s1 =
        some (chatRow, insertRows "c"
          [⟨"user", "p1", "q"⟩, ⟨"assistant", "p2", "a"⟩]) :=
  upsertChat_replace_getChat "u" "c" "t1"
    [⟨"user", "p1", "q"⟩, ⟨"assistant", "p2", "a"⟩]
    ⟨[⟨"c", "u", "t0"⟩], [⟨"c", "user", "old", 0⟩]⟩
    ⟨⟨"c", "u", "t0"⟩, by decide, rfl, rfl⟩

/-- Claim C5: `upsertChat` is idempotent — when a call succeeds,
repeating it with the same arguments on the resulting store succeeds
and leaves the store exactly as it was after the first call (same
title, same message rows in the same order, no duplicates).  The store
is assumed foreign-key well-formed. -/
theorem upsertChat_idempotent (uid cid title : String) (ms : List Msg)
    (s s1 : Store) (hwf : StoreWF s)
    (h1 : upsertChat uid cid title ms s = .ok s1) :
    upsertChat uid cid title ms s1 = .ok s1 := by
  cases hf : s.chats.find? fun c => c.id == cid && c.userId == uid with
  | none =>
    cases ha : s.chats.any fun c => c.id == cid with
    | true => simp [upsertChat, hf, ha] at h1
    | false =>
      have hnomsg := filter_ne_of_no_chat s cid hwf ha
      have h1' : upsertChat uid cid title ms s =
          .ok ⟨s.chats ++ [⟨cid, uid, title⟩], s.msgs ++ insertRows cid ms⟩ := by
        cases ms with
        | nil => simp [upsertChat, hf, ha, insertRows]
        | cons m ms2 => simp [upsertChat, hf, ha]
      rw [h1'] at h1
      injection h1 with h1
      subst h1
      have hf2 : ((s.chats ++ [(⟨cid, uid, title⟩ : ChatRow)]).find?
          fun c => c.id == cid && c.userId == uid) =
          some ⟨cid, uid, title⟩ := by
        rw [List.find?_append, hf, Option.none_or]
        simp
      rw [upsertChat_found uid cid title ms
        ⟨s.chats ++ [(⟨cid, uid, title⟩ : ChatRow)], s.msgs ++ insertRows cid ms⟩
        ⟨cid, uid, title⟩ hf2 rfl]
      simp [List.filter_append, hnomsg, filter_ne_insertRows]
  | some chat =>
    have hp := List.find?_some hf
    simp only [Bool.and_eq_true, beq_iff_eq] at hp
    rw [upsertChat_found uid cid title ms s chat hf hp.2] at h1
    injection h1 with h1
    subst h1
    by_cases ht : chat.title = title
    · have hc1 : (chat.title == title) = true := by simp [ht]
      simp only [hc1, if_true]
      rw [upsertChat_found uid cid title ms
        ⟨s.chats, (s.msgs.filter fun m => m.chatId != cid) ++ insertRows cid ms⟩
        chat hf hp.2]
      simp [hc1, List.filter_append, filter_idem, filter_ne_insertRows]
    · have hc1 : (chat.title == title) = false := by simp [ht]
      simp only [hc1, Bool.false_eq_true, if_false]
      have hf2 : ((s.chats.map fun c =>
          if c.id == cid then { c with title := title } else c).find?
            fun c => c.id == cid && c.userId == uid) =
          some { chat with title := title } := by
        rw [find?_chats_map_title, hf, Option.map_some']
        simp [hp.1]
      rw [upsertChat_found uid cid title ms
        ⟨s.chats.map fun c =>
            if c.id == cid then { c with title := title } else c,
          (s.msgs.filter fun m => m.chatId != cid) ++ insertRows cid ms⟩
        { chat with title := title } hf2 hp.2]
      simp [List.filter_append, filter_idem, filter_ne_insertRows]

/-- Witness for C5: upserting the same chat twice from the empty
store. -/
theorem upsertChat_idempotent_witness :
    upsertChat "u" "c" "t" [⟨"user", "p", "hi"⟩]
        ⟨[⟨"c", "u", "t"⟩], [⟨"c", "user", "p", 0⟩]⟩ =
      .ok ⟨[⟨"c", "u", "t"⟩], [⟨"c", "user", "p", 0⟩]⟩ :=
  upsertChat_idempotent "u" "c" "t" [⟨"user", "p", "hi"⟩]
    Store.empty ⟨[⟨"c", "u", "t"⟩], [⟨"c", "user", "p", 0⟩]⟩
    (by decide) (by rfl)
